import Mathlib

/-!
Verification of the caresense cryptographic core: the encryption context
manager (`caresense/crypto/fhe.py`), the encrypted object store
(`caresense/crypto/secure_store.py`), the biometric authentication service
(`caresense/services/auth_service.py`) and the compliance ledger
(`caresense/workflows/compliance.py`), shallowly embedded in Lean.

Modelling conventions:
* Real-valued biometric vectors are modelled over `ℚ`.  The CKKS scheme is
  approximate; the spec directs all downstream comparisons to tolerate a
  small epsilon, and the idealised model takes the round trip
  `decrypt_vector (encrypt_vector v) = v` to be exact.
* Library-guaranteed identity round trips are collapsed: `bytes.hex` /
  `bytes.fromhex`, `PyCtxt.to_bytes` / `PyCtxt(bytestring=...)` and
  authenticated Fernet decryption of a token produced by `Fernet.encrypt`
  under the same key all return exactly what was put in, so a stored record
  is represented by the decrypted payload it round-trips to, together with
  an explicit `corrupted` state for bytes that fail authenticated
  decryption.
* Python `json.dumps` is modelled by an executable serializer `Json.dumps`
  over a `Json` inductive (numbers restricted to integers; float formatting
  is outside the model).  The default separators `", "` and `": "` and the
  `sort_keys=True` flag used by the compliance trail are modelled exactly.
  The escaper covers the JSON two-character escapes; `\uXXXX` escapes of
  exotic control characters are not modelled (they never arise in the
  payloads of this repository and do not affect unambiguity).
* Ed25519 signing is modelled symbolically: a signature is a pair of the
  signing key and the exact message bytes, distinct messages giving
  distinct signatures (deterministic Ed25519 correctness plus EUF-CMA,
  idealised), and verification against the matching public key checks
  exactly that pair.
-/

mutual

/-- JSON values as produced by Python's `json` module for the payloads of
this repository: `null`, booleans, integers, strings, arrays and objects
(association lists of string keys, in insertion order).  Python floats are
outside the model. -/
inductive Json where
  | null : Json
  | bool : Bool → Json
  | int : Int → Json
  | str : String → Json
  | arr : JsonArr → Json
  | obj : JsonKVs → Json

/-- A sequence of JSON array elements. -/
inductive JsonArr where
  | nil : JsonArr
  | cons : Json → JsonArr → JsonArr

/-- A sequence of JSON object members (key/value pairs). -/
inductive JsonKVs where
  | nil : JsonKVs
  | cons : String → Json → JsonKVs → JsonKVs

end

/-- One step of the fuel-driven decimal rendering of a natural number. -/
def natCharsAux : Nat → Nat → List Char
  | 0, _ => []
  | fuel + 1, n =>
    if n < 10 then [Nat.digitChar n]
    else natCharsAux fuel (n / 10) ++ [Nat.digitChar (n % 10)]

/-- Decimal digit characters of a natural number, most significant first
(the digits Python prints for a non-negative `int`).  The fuel `n + 1`
always suffices because `n / 10 < n` for `n ≥ 10`. -/
def natChars (n : Nat) : List Char := natCharsAux (n + 1) n

/-- Decimal rendering of a Python `int`, with a leading minus sign for
negative values. -/
def intChars (n : Int) : List Char :=
  if n < 0 then '-' :: natChars n.natAbs else natChars n.natAbs

/-- JSON string escaping of one character, as `json.dumps` performs it for
the characters appearing in this repository's payloads: the two-character
escapes for quote, backslash, newline, tab and carriage return; other
characters pass through. -/
def escChar (c : Char) : List Char :=
  if c = '"' then ['\\', '"']
  else if c = '\\' then ['\\', '\\']
  else if c = '\n' then ['\\', 'n']
  else if c = '\t' then ['\\', 't']
  else if c = '\r' then ['\\', 'r']
  else [c]

/-- JSON string escaping of a character sequence. -/
def escStr (s : List Char) : List Char := s.flatMap escChar

mutual

/-- The characters `json.dumps` emits for a JSON value with the default
separators `", "` and `": "`, keys in the order they appear. -/
def Json.dumpsL : Json → List Char
  | Json.null => ['n', 'u', 'l', 'l']
  | Json.bool true => ['t', 'r', 'u', 'e']
  | Json.bool false => ['f', 'a', 'l', 's', 'e']
  | Json.int n => intChars n
  | Json.str s => '"' :: escStr s.toList ++ ['"']
  | Json.arr xs => '[' :: Json.dumpsElems xs ++ [']']
  | Json.obj kvs => '{' :: Json.dumpsMems kvs ++ ['}']

/-- Array elements, separated by `", "`. -/
def Json.dumpsElems : JsonArr → List Char
  | JsonArr.nil => []
  | JsonArr.cons x JsonArr.nil => Json.dumpsL x
  | JsonArr.cons x (JsonArr.cons y xs) =>
      Json.dumpsL x ++ ',' :: ' ' :: Json.dumpsElems (JsonArr.cons y xs)

/-- Object members `"key": value`, separated by `", "`. -/
def Json.dumpsMems : JsonKVs → List Char
  | JsonKVs.nil => []
  | JsonKVs.cons k v JsonKVs.nil =>
      '"' :: escStr k.toList ++ '"' :: ':' :: ' ' :: Json.dumpsL v
  | JsonKVs.cons k v (JsonKVs.cons k2 v2 kvs) =>
      '"' :: escStr k.toList ++ '"' :: ':' :: ' ' :: Json.dumpsL v ++
        ',' :: ' ' :: Json.dumpsMems (JsonKVs.cons k2 v2 kvs)

end

/-- `json.dumps` with default flags: the serialized string. -/
def Json.dumps (j : Json) : String := ⟨Json.dumpsL j⟩

/-- Lexicographic comparison of character sequences by code point, the
order Python uses to compare `str` keys under `sort_keys=True`. -/
def keyLeL : List Char → List Char → Bool
  | [], _ => true
  | _ :: _, [] => false
  | a :: as, b :: bs =>
      if a.toNat < b.toNat then true
      else if b.toNat < a.toNat then false
      else keyLeL as bs

/-- Lexicographic string comparison by code point. -/
def keyLe (a b : String) : Bool := keyLeL a.toList b.toList

/-- Insertion into a key-sorted member list, keeping the existing order
among equal keys (stable, like Python's sort). -/
def insertKV (k : String) (v : Json) : JsonKVs → JsonKVs
  | JsonKVs.nil => JsonKVs.cons k v JsonKVs.nil
  | JsonKVs.cons k2 v2 kvs =>
      if keyLe k k2 then JsonKVs.cons k v (JsonKVs.cons k2 v2 kvs)
      else JsonKVs.cons k2 v2 (insertKV k v kvs)

/-- Key-sorting of an object member list (insertion sort, stable). -/
def sortKV : JsonKVs → JsonKVs
  | JsonKVs.nil => JsonKVs.nil
  | JsonKVs.cons k v kvs => insertKV k v (sortKV kvs)

mutual

/-- Recursive key-sorting of every object in a JSON value: the value whose
serialization `json.dumps(..., sort_keys=True)` emits. -/
def Json.sortKeys : Json → Json
  | Json.null => Json.null
  | Json.bool b => Json.bool b
  | Json.int n => Json.int n
  | Json.str s => Json.str s
  | Json.arr xs => Json.arr (Json.sortKeysElems xs)
  | Json.obj kvs => Json.obj (sortKV (Json.sortKeysMems kvs))

/-- Key-sorting mapped over array elements. -/
def Json.sortKeysElems : JsonArr → JsonArr
  | JsonArr.nil => JsonArr.nil
  | JsonArr.cons x xs => JsonArr.cons (Json.sortKeys x) (Json.sortKeysElems xs)

/-- Key-sorting mapped over object member values. -/
def Json.sortKeysMems : JsonKVs → JsonKVs
  | JsonKVs.nil => JsonKVs.nil
  | JsonKVs.cons k v kvs => JsonKVs.cons k (Json.sortKeys v) (Json.sortKeysMems kvs)

end

/-- `json.dumps` with `sort_keys=True`, as the compliance trail serializes
the record it signs. -/
def Json.dumpsSorted (j : Json) : String := (Json.sortKeys j).dumps

mutual

/-- Boolean equality of JSON values. -/
def Json.beq : Json → Json → Bool
  | Json.null, Json.null => true
  | Json.bool a, Json.bool b => a == b
  | Json.int a, Json.int b => a == b
  | Json.str a, Json.str b => a == b
  | Json.arr a, Json.arr b => Json.beqElems a b
  | Json.obj a, Json.obj b => Json.beqMems a b
  | _, _ => false

/-- Boolean equality of array element lists. -/
def Json.beqElems : JsonArr → JsonArr → Bool
  | JsonArr.nil, JsonArr.nil => true
  | JsonArr.cons x xs, JsonArr.cons y ys => Json.beq x y && Json.beqElems xs ys
  | _, _ => false

/-- Boolean equality of object member lists. -/
def Json.beqMems : JsonKVs → JsonKVs → Bool
  | JsonKVs.nil, JsonKVs.nil => true
  | JsonKVs.cons k v kvs, JsonKVs.cons k2 v2 kvs2 =>
      k == k2 && Json.beq v v2 && Json.beqMems kvs kvs2
  | _, _ => false

end

mutual

theorem Json.beq_iff : ∀ a b : Json, Json.beq a b = true ↔ a = b
  | Json.null, b => by
      cases b <;> simp [Json.beq]
  | Json.bool x, b => by
      cases b <;> simp [Json.beq]
  | Json.int x, b => by
      cases b <;> simp [Json.beq]
  | Json.str x, b => by
      cases b <;> simp [Json.beq]
  | Json.arr xs, b => by
      cases b <;> simp [Json.beq, Json.beqElems_iff xs]
  | Json.obj kvs, b => by
      cases b <;> simp [Json.beq, Json.beqMems_iff kvs]

theorem Json.beqElems_iff : ∀ a b : JsonArr, Json.beqElems a b = true ↔ a = b
  | JsonArr.nil, b => by
      cases b <;> simp [Json.beqElems]
  | JsonArr.cons x xs, b => by
      cases b <;>
        simp [Json.beqElems, Json.beq_iff x, Json.beqElems_iff xs]

theorem Json.beqMems_iff : ∀ a b : JsonKVs, Json.beqMems a b = true ↔ a = b
  | JsonKVs.nil, b => by
      cases b <;> simp [Json.beqMems]
  | JsonKVs.cons k v kvs, b => by
      cases b <;>
        simp [Json.beqMems, Json.beq_iff v, Json.beqMems_iff kvs, and_assoc]

end

instance : DecidableEq Json := fun a b =>
  decidable_of_iff (Json.beq a b = true) (Json.beq_iff a b)

instance : DecidableEq JsonArr := fun a b =>
  decidable_of_iff (Json.beqElems a b = true) (Json.beqElems_iff a b)

instance : DecidableEq JsonKVs := fun a b =>
  decidable_of_iff (Json.beqMems a b = true) (Json.beqMems_iff a b)

/-- A JSON value is canonical when every object already has its keys in
sorted order — the shape in which a Python `dict` is rendered by
`sort_keys=True`.  Payload equality in the claims is equality of canonical
values. -/
def Json.Canonical (j : Json) : Prop := Json.sortKeys j = j

instance (j : Json) : Decidable j.Canonical := by
  unfold Json.Canonical; infer_instance

/-! ## Encrypted object store (`caresense/crypto/secure_store.py`) -/

/-- What the store's payloads decrypt to.  `SecureStore.write` serializes an
arbitrary payload with `json.dumps`; the biometric service's records are the
dicts `{"ciphertext": ciphertext.to_bytes().hex()}`, whose hex string is the
serialization of the CKKS ciphertext of an enrolled vector.  The
library-identity round trips (`bytes.fromhex ∘ bytes.hex`, `PyCtxt`
serialization, idealised CKKS decryption of an encryption) are collapsed, so
such a record is represented by the rational vector it encrypts, and every
other payload by its JSON value. -/
inductive StorePayload where
  | js : Json → StorePayload
  | bio : List ℚ → StorePayload
deriving DecidableEq

/-- The bytes persisted for one record name, as seen through authenticated
Fernet decryption: either the intact Fernet token written by
`SecureStore.write` (which decrypts to exactly the written payload), or
bytes that fail authenticated decryption (corruption or tampering). -/
inductive Blob where
  | intact : StorePayload → Blob
  | corrupted : Blob
deriving DecidableEq

/-- The encrypted object store's record files under the storage root: one
record per name, in insertion order. -/
def Store := List (String × Blob)

instance : DecidableEq Store := by
  unfold Store; infer_instance

/-- The exception `cryptography.fernet.InvalidToken`, raised by
`Fernet.decrypt` on bytes failing authenticated decryption.
`SecureStore.read` installs no exception handler, so it propagates raw. -/
inductive StoreError where
  | invalidToken : StoreError
deriving DecidableEq

/-- Look up the record file for a name (`path.exists()` / `read_bytes`). -/
def findRecord : Store → String → Option Blob
  | [], _ => none
  | (n, b) :: rest, name => if n = name then some b else findRecord rest name

/-- Persist a blob for a name, overwriting any prior record
(`path.write_bytes`). -/
def setRecord : Store → String → Blob → Store
  | [], name, b => [(name, b)]
  | (n, c) :: rest, name, b =>
      if n = name then (name, b) :: rest else (n, c) :: setRecord rest name b

/-- `SecureStore.write`: serialize the payload with `json.dumps`, encrypt
with the Fernet master key, persist under the record path for `name`,
overwriting any prior value. -/
def SecureStore.write (s : Store) (name : String) (p : StorePayload) : Store :=
  setRecord s name (Blob.intact p)

/-- `SecureStore.read`: if no record file exists return `None`; otherwise
decrypt with the master key and deserialize.  `Fernet.decrypt` of corrupted
bytes raises `InvalidToken`, which `read` does not catch. -/
def SecureStore.read (s : Store) (name : String) : Except StoreError (Option StorePayload) :=
  match findRecord s name with
  | none => Except.ok none
  | some (Blob.intact p) => Except.ok (some p)
  | some Blob.corrupted => Except.error StoreError.invalidToken

/-! ## Encryption context manager (`caresense/crypto/fhe.py`) -/

/-- The two persisted files of the encryption context manager: the context
parameters + public material, and the secret key material.  File contents
are key-material generation identifiers. -/
structure FheFiles where
  contextFile : Option Nat
  secretFile : Option Nat
deriving DecidableEq

/-- In-process state of `FHEContext`: the `_initialised` flag and the
scheme/key material the `Pyfhel` instance holds once initialised, as the
pair (context parameters + public material, secret key). -/
structure FHEContext where
  initialised : Bool
  keyMaterial : Option (Nat × Nat)
deriving DecidableEq

/-- `FHEContext._context_files_exist`: both persisted files exist. -/
def contextFilesExist (fs : FheFiles) : Bool :=
  fs.contextFile.isSome && fs.secretFile.isSome

/-- `FHEContext.initialise`: return immediately when already initialised;
load both files when both exist; otherwise generate fresh parameters and
keys (`contextGen`, `keyGen`, `rotateKeyGen`, modelled by the generation
identifier `fresh`) and save both files, then mark the instance
initialised. -/
def FHEContext.initialise (fresh : Nat) (c : FHEContext) (fs : FheFiles) :
    FHEContext × FheFiles :=
  if c.initialised then (c, fs)
  else
    match fs.contextFile, fs.secretFile with
    | some ctx, some sec =>
        ({ initialised := true, keyMaterial := some (ctx, sec) }, fs)
    | some _, none =>
        ({ initialised := true, keyMaterial := some (fresh, fresh) },
         { contextFile := some fresh, secretFile := some fresh })
    | none, some _ =>
        ({ initialised := true, keyMaterial := some (fresh, fresh) },
         { contextFile := some fresh, secretFile := some fresh })
    | none, none =>
        ({ initialised := true, keyMaterial := some (fresh, fresh) },
         { contextFile := some fresh, secretFile := some fresh })

/-! ## Biometric authentication service (`caresense/services/auth_service.py`) -/

/-- The record name `f"biometric_{token_id}"`. -/
def biometricRecordName (tokenId : String) : String := "biometric_" ++ tokenId

/-- The `BiometricToken` dataclass: the token id and the hex-encoded
ciphertext (represented by the vector it encrypts, see `StorePayload`). -/
structure BiometricToken where
  tokenId : String
  ciphertext : List ℚ
deriving DecidableEq

/-- Python exceptions that can escape `BiometricAuthService.verify`, which
installs no exception handler: the raw `InvalidToken` propagating out of
`SecureStore.read` on a corrupted record; a lookup/decode failure of
`record["ciphertext"]` on a record not shaped like an enrolment record; and
the `ZeroDivisionError` from dividing by `len(baseline_vector)` when the
baseline is empty. -/
inductive PyExn where
  | invalidToken : PyExn
  | recordShape : PyExn
  | zeroDivision : PyExn
deriving DecidableEq

/-- Python truthiness of a JSON value, as `if not record` tests it:
`None`, `False`, `0`, `""`, `[]` and `{}` are falsy. -/
def jsonFalsy : Json → Bool
  | Json.null => true
  | Json.bool b => !b
  | Json.int n => n == 0
  | Json.str s => s == ""
  | Json.arr JsonArr.nil => true
  | Json.arr (JsonArr.cons _ _) => false
  | Json.obj JsonKVs.nil => true
  | Json.obj (JsonKVs.cons _ _ _) => false

/-- The mean absolute element-wise difference computed at lines 63–65 of
`auth_service.py`: `sum(abs(base - presented) for base, presented in
zip(baseline_vector, presented_vector)) / len(baseline_vector)`. -/
def meanAbsDist (baseline presented : List ℚ) : ℚ :=
  ((baseline.zip presented).map (fun p => |p.1 - p.2|)).sum / (baseline.length : ℚ)

/-- The default `tolerance = 0.1` of `BiometricAuthService.verify`. -/
def defaultTolerance : ℚ := 1 / 10

/-- `BiometricAuthService.enrol`: encrypt the vector, persist the record
`{"ciphertext": ciphertext.to_bytes().hex()}` under
`f"biometric_{token_id}"`, and return the token.  The token id, produced in
the source from 18 bytes of `os.urandom`, is an environmental input and is
passed as the parameter `tokenId`.  The source performs no validation of
the vector before encrypting and persisting it. -/
def BiometricAuthService.enrol (s : Store) (tokenId : String) (v : List ℚ) :
    Store × BiometricToken :=
  (SecureStore.write s (biometricRecordName tokenId) (StorePayload.bio v),
   { tokenId := tokenId, ciphertext := v })

/-- `BiometricAuthService.verify`: read the record for the token id;
`if not record: return False` (an absent record reads as `None`, and a
stored falsy payload is likewise rejected); for any other payload not
shaped like an enrolment record, `record["ciphertext"]` fails; otherwise
decode and decrypt the stored baseline;
`if len(baseline_vector) != len(presented_vector): return False`; otherwise
return `distance <= tolerance` for the mean absolute element-wise
difference.  Exceptions raised inside (the store's `InvalidToken`, a
malformed record, the division by a zero-length baseline) propagate to the
caller, as `verify` has no handler. -/
def BiometricAuthService.verify (s : Store) (tokenId : String)
    (presented : List ℚ) (tolerance : ℚ) : Except PyExn Bool :=
  match SecureStore.read s (biometricRecordName tokenId) with
  | Except.error _ => Except.error PyExn.invalidToken
  | Except.ok none => Except.ok false
  | Except.ok (some (StorePayload.js j)) =>
      if jsonFalsy j then Except.ok false else Except.error PyExn.recordShape
  | Except.ok (some (StorePayload.bio baseline)) =>
      if baseline.length ≠ presented.length then Except.ok false
      else if baseline.length = 0 then Except.error PyExn.zeroDivision
      else Except.ok (decide (meanAbsDist baseline presented ≤ tolerance))

/-- The state-passing form of `verify`, exposing the store it leaves
behind: the source's `verify` performs exactly one store operation, the
`read` at line 50, and `SecureStore.read` writes nothing, so the resulting
store is the store the call started from. -/
def BiometricAuthService.verifyRun (s : Store) (tokenId : String)
    (presented : List ℚ) (tolerance : ℚ) : Store × Except PyExn Bool :=
  (s, BiometricAuthService.verify s tokenId presented tolerance)

/-! ## Compliance ledger (`caresense/workflows/compliance.py`) -/

/-- An Ed25519 signature, symbolically: the signing key together with the
exact message bytes.  Deterministic Ed25519 produces one signature per
(key, message) pair, and distinct pairs give distinct signatures
(correctness plus unforgeability, idealised). -/
structure Sig where
  key : Nat
  msg : List Char
deriving DecidableEq

/-- `private_key.sign(serialized)`. -/
def ed25519Sign (sk : Nat) (msg : List Char) : Sig := ⟨sk, msg⟩

/-- Ed25519 signature verification against a public key: succeeds exactly
when the signature was produced under the matching private key on exactly
these message bytes. -/
def ed25519Verify (pk : Nat) (msg : List Char) (sig : Sig) : Bool :=
  decide (sig.key = pk ∧ sig.msg = msg)

/-- `signature.hex()`: the hex rendering of the signature bytes, modelled
by an injective character encoding of the symbolic signature. -/
def sigHex (sig : Sig) : List Char := natChars sig.key ++ ':' :: sig.msg

/-- `ComplianceTrail` state: the Ed25519 signing key (generated once and
persisted by `_ensure_keys`) and the lines of the append-only ledger file,
oldest first. -/
structure ComplianceTrail where
  signingKey : Nat
  ledger : List String
deriving DecidableEq

/-- `ComplianceTrail.public_key_pem`: the PEM export of the public half,
identifying the key pair. -/
def ComplianceTrail.publicKeyPem (t : ComplianceTrail) : Nat := t.signingKey

/-- The `normalized` record `{"timestamp": timestamp, "payload": payload}`
built at lines 56–59 of `compliance.py`, keys in insertion order. -/
def normalizedRecord (timestamp : String) (payload : Json) : Json :=
  Json.obj (JsonKVs.cons "timestamp" (Json.str timestamp)
    (JsonKVs.cons "payload" payload JsonKVs.nil))

/-- The ledger `record` `{**normalized, "signature": signature.hex()}`
built at lines 63–66 of `compliance.py`. -/
def ledgerRecord (timestamp : String) (payload : Json) (sig : Sig) : Json :=
  Json.obj (JsonKVs.cons "timestamp" (Json.str timestamp)
    (JsonKVs.cons "payload" payload
      (JsonKVs.cons "signature" (Json.str ⟨sigHex sig⟩) JsonKVs.nil)))

/-- `ComplianceTrail.log_event`: build the normalized record, serialize it
with `json.dumps(..., sort_keys=True)`, sign exactly those bytes, append
one line `json.dumps(record)` to the ledger file, and return the
hex-encoded signature.  The timestamp, `datetime.now(timezone.utc)
.isoformat()` in the source, is an environmental input and is passed as a
parameter. -/
def ComplianceTrail.logEvent (t : ComplianceTrail) (timestamp : String)
    (payload : Json) : ComplianceTrail × String :=
  let serialized := (normalizedRecord timestamp payload).dumpsSorted
  let signature := ed25519Sign t.signingKey serialized.toList
  let record := ledgerRecord timestamp payload signature
  ({ t with ledger := t.ledger ++ [record.dumps] }, ⟨sigHex signature⟩)

/-! ## Serializer unambiguity -/

/-- A character sequence that does not begin with a decimal digit: the
shape of everything that can follow a serialized JSON number inside a
serialized record (`,`, `]`, `}`, or the end). -/
def noDigitStart : List Char → Prop
  | [] => True
  | c :: _ => ¬ c.isDigit

/-- The value denoted by a run of decimal digit characters. -/
def digitsVal (ds : List Char) : Nat :=
  ds.foldl (fun a c => 10 * a + (c.toNat - 48)) 0

theorem digitsVal_append (ds es : List Char) :
    digitsVal (ds ++ es) = es.foldl (fun a c => 10 * a + (c.toNat - 48)) (digitsVal ds) := by
  simp [digitsVal, List.foldl_append]

theorem digitChar_isDigit (n : Nat) (h : n < 10) : (Nat.digitChar n).isDigit := by
  interval_cases n <;> decide

theorem digitChar_toNat (n : Nat) (h : n < 10) : (Nat.digitChar n).toNat = 48 + n := by
  interval_cases n <;> decide

theorem natCharsAux_spec (fuel : Nat) : ∀ n, n < fuel →
    natCharsAux fuel n ≠ [] ∧ (∀ c ∈ natCharsAux fuel n, c.isDigit) ∧
      digitsVal (natCharsAux fuel n) = n := by
  induction fuel with
  | zero => intro n h; omega
  | succ fuel ih =>
    intro n h
    by_cases h10 : n < 10
    · simp only [natCharsAux, if_pos h10]
      refine ⟨by simp, ?_, ?_⟩
      · intro c hc
        simp at hc
        subst hc
        exact digitChar_isDigit n h10
      · simp [digitsVal, digitChar_toNat n h10]
    · have hdiv : n / 10 < fuel := by omega
      obtain ⟨hne, hdig, hval⟩ := ih (n / 10) hdiv
      simp only [natCharsAux, if_neg h10]
      refine ⟨by simp, ?_, ?_⟩
      · intro c hc
        rcases List.mem_append.mp hc with hc | hc
        · exact hdig c hc
        · simp at hc
          subst hc
          exact digitChar_isDigit _ (Nat.mod_lt n (by omega))
      · rw [digitsVal_append, hval]
        simp [digitChar_toNat _ (Nat.mod_lt n (by omega))]
        omega

theorem natChars_ne_nil (n : Nat) : natChars n ≠ [] :=
  (natCharsAux_spec (n + 1) n (by omega)).1

theorem natChars_isDigit (n : Nat) : ∀ c ∈ natChars n, c.isDigit :=
  (natCharsAux_spec (n + 1) n (by omega)).2.1

theorem digitsVal_natChars (n : Nat) : digitsVal (natChars n) = n :=
  (natCharsAux_spec (n + 1) n (by omega)).2.2

theorem natChars_inj (m n : Nat) (h : natChars m = natChars n) : m = n := by
  have := digitsVal_natChars m
  rw [h, digitsVal_natChars] at this
  omega

/-- A run of digits followed by a non-digit is recovered unambiguously. -/
theorem digitRun_cancel : ∀ (a b s t : List Char),
    (∀ c ∈ a, c.isDigit) → (∀ c ∈ b, c.isDigit) →
    noDigitStart s → noDigitStart t →
    a ++ s = b ++ t → a = b ∧ s = t := by
  intro a
  induction a with
  | nil =>
    intro b s t _ hb hs _ h
    cases b with
    | nil => simpa using h
    | cons c b2 =>
      simp at h
      exfalso
      rw [h] at hs
      exact hs (hb c (by simp))
  | cons c a2 ih =>
    intro b s t ha hb hs ht h
    cases b with
    | nil =>
      simp at h
      exfalso
      rw [← h] at ht
      exact ht (ha c (by simp))
    | cons d b2 =>
      simp at h
      obtain ⟨hcd, hrest⟩ := h
      subst hcd
      obtain ⟨he, hst⟩ := ih b2 s t (fun x hx => ha x (by simp [hx]))
        (fun x hx => hb x (by simp [hx])) hs ht hrest
      exact ⟨by rw [he], hst⟩

theorem natChars_cancel (m n : Nat) (s t : List Char)
    (hs : noDigitStart s) (ht : noDigitStart t)
    (h : natChars m ++ s = natChars n ++ t) : m = n ∧ s = t := by
  obtain ⟨he, hst⟩ := digitRun_cancel (natChars m) (natChars n) s t
    (natChars_isDigit m) (natChars_isDigit n) hs ht h
  exact ⟨natChars_inj m n he, hst⟩

theorem natChars_head (n : Nat) : ∃ c r, natChars n = c :: r ∧ c.isDigit := by
  cases hn : natChars n with
  | nil => exact absurd hn (natChars_ne_nil n)
  | cons c r =>
    exact ⟨c, r, rfl, natChars_isDigit n c (by rw [hn]; simp)⟩

theorem intChars_head (n : Int) :
    ∃ c r, intChars n = c :: r ∧ (c.isDigit ∨ c = '-') := by
  unfold intChars
  by_cases h : n < 0
  · exact ⟨'-', natChars n.natAbs, by simp [h], Or.inr rfl⟩
  · obtain ⟨c, r, hc, hd⟩ := natChars_head n.natAbs
    exact ⟨c, r, by simp [h, hc], Or.inl hd⟩

theorem intChars_cancel (m n : Int) (s t : List Char)
    (hs : noDigitStart s) (ht : noDigitStart t)
    (h : intChars m ++ s = intChars n ++ t) : m = n ∧ s = t := by
  unfold intChars at h
  by_cases hm : m < 0 <;> by_cases hn : n < 0
  · simp only [if_pos hm, if_pos hn] at h
    simp at h
    obtain ⟨ha, hst⟩ := natChars_cancel _ _ _ _ hs ht h
    exact ⟨by omega, hst⟩
  · simp only [if_pos hm, if_neg hn] at h
    obtain ⟨c, r, hc, hd⟩ := natChars_head n.natAbs
    rw [hc] at h
    simp at h
    exfalso
    rw [← h.1] at hd
    revert hd
    decide
  · simp only [if_neg hm, if_pos hn] at h
    obtain ⟨c, r, hc, hd⟩ := natChars_head m.natAbs
    rw [hc] at h
    simp at h
    exfalso
    rw [h.1] at hd
    revert hd
    decide
  · simp only [if_neg hm, if_neg hn] at h
    obtain ⟨ha, hst⟩ := natChars_cancel _ _ _ _ hs ht h
    exact ⟨by omega, hst⟩

theorem escChar_ne_nil (c : Char) : escChar c ≠ [] := by
  unfold escChar
  split_ifs <;> simp

theorem escChar_head_ne_quote (c : Char) :
    ∃ d r, escChar c = d :: r ∧ d ≠ '"' := by
  unfold escChar
  split_ifs with h1 h2 h3 h4 h5
  · exact ⟨'\\', ['"'], rfl, by decide⟩
  · exact ⟨'\\', ['\\'], rfl, by decide⟩
  · exact ⟨'\\', ['n'], rfl, by decide⟩
  · exact ⟨'\\', ['t'], rfl, by decide⟩
  · exact ⟨'\\', ['r'], rfl, by decide⟩
  · exact ⟨c, [], rfl, h1⟩

theorem escChar_cancel (c d : Char) (r1 r2 : List Char)
    (h : escChar c ++ r1 = escChar d ++ r2) : c = d ∧ r1 = r2 := by
  unfold escChar at h
  split_ifs at h with h1 h2 h3 h4 h5 g1 g2 g3 g4 g5 <;>
    simp_all <;>
    exact absurd h.1.symm ‹¬ d = '\\'›

theorem escStr_cancel : ∀ (a b s t : List Char),
    escStr a ++ '"' :: s = escStr b ++ '"' :: t → a = b ∧ s = t := by
  intro a
  induction a with
  | nil =>
    intro b s t h
    cases b with
    | nil => simpa [escStr] using h
    | cons d b2 =>
      exfalso
      obtain ⟨e, r, he, hne⟩ := escChar_head_ne_quote d
      simp only [escStr, List.flatMap_cons, List.flatMap_nil, List.nil_append] at h
      rw [he] at h
      simp at h
      exact hne h.1.symm
  | cons c a2 ih =>
    intro b s t h
    cases b with
    | nil =>
      exfalso
      obtain ⟨e, r, he, hne⟩ := escChar_head_ne_quote c
      simp only [escStr, List.flatMap_cons, List.flatMap_nil, List.nil_append] at h
      rw [he] at h
      simp at h
      exact hne h.1
    | cons d b2 =>
      simp only [escStr, List.flatMap_cons, List.append_assoc] at h
      obtain ⟨hcd, hrest⟩ := escChar_cancel c d _ _ h
      subst hcd
      obtain ⟨ha, hst⟩ := ih b2 s t hrest
      exact ⟨by rw [ha], hst⟩

/-- The first character a serialized JSON value can start with, by
constructor. -/
def jsonStart : Json → Char → Prop
  | Json.null, c => c = 'n'
  | Json.bool true, c => c = 't'
  | Json.bool false, c => c = 'f'
  | Json.int _, c => c.isDigit ∨ c = '-'
  | Json.str _, c => c = '"'
  | Json.arr _, c => c = '['
  | Json.obj _, c => c = '{'

theorem dumpsL_head (j : Json) :
    ∃ c r, Json.dumpsL j = c :: r ∧ jsonStart j c := by
  cases j with
  | null => exact ⟨'n', ['u', 'l', 'l'], rfl, rfl⟩
  | bool b =>
    cases b with
    | false => exact ⟨'f', ['a', 'l', 's', 'e'], rfl, rfl⟩
    | true => exact ⟨'t', ['r', 'u', 'e'], rfl, rfl⟩
  | int n =>
    obtain ⟨c, r, hc, hd⟩ := intChars_head n
    exact ⟨c, r, by simp [Json.dumpsL, hc], hd⟩
  | str s => exact ⟨'"', escStr s.toList ++ ['"'], rfl, rfl⟩
  | arr xs => exact ⟨'[', Json.dumpsElems xs ++ [']'], rfl, rfl⟩
  | obj kvs => exact ⟨'{', Json.dumpsMems kvs ++ ['}'], rfl, rfl⟩

theorem noDigitStart_cons {c : Char} (l : List Char) (h : c.isDigit = false) :
    noDigitStart (c :: l) := by
  simp [noDigitStart, h]

theorem jsonStart_not_delim (j : Json) (c : Char) (h : jsonStart j c) :
    c ≠ ']' ∧ c ≠ '}' ∧ c ≠ ',' := by
  cases j with
  | null => subst h; decide
  | bool b =>
    cases b with
    | false => subst h; decide
    | true => subst h; decide
  | int n =>
    rcases h with h | h
    · refine ⟨?_, ?_, ?_⟩ <;> intro he <;> subst he <;> revert h <;> decide
    · subst h; decide
  | str s => subst h; decide
  | arr xs => subst h; decide
  | obj kvs => subst h; decide

theorem dumpsElems_head (y : Json) (ys : JsonArr) :
    ∃ c r, Json.dumpsElems (JsonArr.cons y ys) = c :: r ∧ jsonStart y c := by
  obtain ⟨c, r, hc, hj⟩ := dumpsL_head y
  cases ys with
  | nil => exact ⟨c, r, by simp [Json.dumpsElems, hc], hj⟩
  | cons y2 ys2 =>
    exact ⟨c, r ++ ',' :: ' ' :: Json.dumpsElems (JsonArr.cons y2 ys2),
      by simp [Json.dumpsElems, hc], hj⟩

theorem string_toList_inj {a b : String} (h : a.toList = b.toList) : a = b := by
  cases a
  cases b
  exact congrArg String.mk (by simpa using h)

theorem fixed_ne_int (k : Char) (hk : k.isDigit = false) (hk2 : k ≠ '-')
    (rest : List Char) (n : Int) (t : List Char)
    (h : k :: rest = intChars n ++ t) : False := by
  obtain ⟨c, r, hc, hd⟩ := intChars_head n
  rw [hc] at h
  simp at h
  obtain ⟨h1, _⟩ := h
  rcases hd with hd | hd
  · rw [← h1] at hd
    simp [hk] at hd
  · exact hk2 (h1.trans hd)

theorem dumpsElems_cons_cons (x y : Json) (ys : JsonArr) :
    Json.dumpsElems (JsonArr.cons x (JsonArr.cons y ys)) =
      Json.dumpsL x ++ ',' :: ' ' :: Json.dumpsElems (JsonArr.cons y ys) := by
  simp [Json.dumpsElems]

theorem dumpsMems_cons_cons (k : String) (v : Json) (k2 : String) (v2 : Json)
    (kvs : JsonKVs) :
    Json.dumpsMems (JsonKVs.cons k v (JsonKVs.cons k2 v2 kvs)) =
      '"' :: escStr k.toList ++ '"' :: ':' :: ' ' :: Json.dumpsL v ++
        ',' :: ' ' :: Json.dumpsMems (JsonKVs.cons k2 v2 kvs) := by
  simp [Json.dumpsMems]

mutual

theorem dumpsL_unamb : ∀ (p q : Json) (s t : List Char),
    noDigitStart s → noDigitStart t →
    Json.dumpsL p ++ s = Json.dumpsL q ++ t → p = q ∧ s = t
  | Json.null, q => by
    intro s t hs ht h
    cases q with
    | null =>
      simp [Json.dumpsL] at h
      exact ⟨rfl, h⟩
    | bool b2 =>
      cases b2 with
      | true => simp [Json.dumpsL] at h
      | false => simp [Json.dumpsL] at h
    | int n =>
      simp [Json.dumpsL] at h
      exact (fixed_ne_int 'n' (by decide) (by decide) _ n t h).elim
    | str b => simp [Json.dumpsL] at h
    | arr ys => simp [Json.dumpsL] at h
    | obj kvs2 => simp [Json.dumpsL] at h
  | Json.bool true, q => by
    intro s t hs ht h
    cases q with
    | null => simp [Json.dumpsL] at h
    | bool b2 =>
      cases b2 with
      | true =>
        simp [Json.dumpsL] at h
        exact ⟨rfl, h⟩
      | false => simp [Json.dumpsL] at h
    | int n =>
      simp [Json.dumpsL] at h
      exact (fixed_ne_int 't' (by decide) (by decide) _ n t h).elim
    | str b => simp [Json.dumpsL] at h
    | arr ys => simp [Json.dumpsL] at h
    | obj kvs2 => simp [Json.dumpsL] at h
  | Json.bool false, q => by
    intro s t hs ht h
    cases q with
    | null => simp [Json.dumpsL] at h
    | bool b2 =>
      cases b2 with
      | true => simp [Json.dumpsL] at h
      | false =>
        simp [Json.dumpsL] at h
        exact ⟨rfl, h⟩
    | int n =>
      simp [Json.dumpsL] at h
      exact (fixed_ne_int 'f' (by decide) (by decide) _ n t h).elim
    | str b => simp [Json.dumpsL] at h
    | arr ys => simp [Json.dumpsL] at h
    | obj kvs2 => simp [Json.dumpsL] at h
  | Json.int m, q => by
    intro s t hs ht h
    cases q with
    | null =>
      simp [Json.dumpsL] at h
      exact (fixed_ne_int 'n' (by decide) (by decide) _ m s h.symm).elim
    | bool b2 =>
      cases b2 with
      | true =>
        simp [Json.dumpsL] at h
        exact (fixed_ne_int 't' (by decide) (by decide) _ m s h.symm).elim
      | false =>
        simp [Json.dumpsL] at h
        exact (fixed_ne_int 'f' (by decide) (by decide) _ m s h.symm).elim
    | int n =>
      simp [Json.dumpsL] at h
      obtain ⟨he, hst⟩ := intChars_cancel m n s t hs ht h
      exact ⟨by rw [he], hst⟩
    | str b =>
      simp [Json.dumpsL] at h
      exact (fixed_ne_int '"' (by decide) (by decide) _ m s h.symm).elim
    | arr ys =>
      simp [Json.dumpsL] at h
      exact (fixed_ne_int '[' (by decide) (by decide) _ m s h.symm).elim
    | obj kvs2 =>
      simp [Json.dumpsL] at h
      exact (fixed_ne_int '{' (by decide) (by decide) _ m s h.symm).elim
  | Json.str a, q => by
    intro s t hs ht h
    cases q with
    | null => simp [Json.dumpsL] at h
    | bool b2 =>
      cases b2 with
      | true => simp [Json.dumpsL] at h
      | false => simp [Json.dumpsL] at h
    | int n =>
      simp [Json.dumpsL] at h
      exact (fixed_ne_int '"' (by decide) (by decide) _ n t h).elim
    | str b =>
      simp [Json.dumpsL] at h
      obtain ⟨ha, hst⟩ := escStr_cancel _ _ _ _ h
      exact ⟨by rw [string_toList_inj ha], hst⟩
    | arr ys => simp [Json.dumpsL] at h
    | obj kvs2 => simp [Json.dumpsL] at h
  | Json.arr xs, q => by
    intro s t hs ht h
    cases q with
    | null => simp [Json.dumpsL] at h
    | bool b2 =>
      cases b2 with
      | true => simp [Json.dumpsL] at h
      | false => simp [Json.dumpsL] at h
    | int n =>
      simp [Json.dumpsL] at h
      exact (fixed_ne_int '[' (by decide) (by decide) _ n t h).elim
    | str b => simp [Json.dumpsL] at h
    | arr ys =>
      simp [Json.dumpsL] at h
      obtain ⟨he, hst⟩ := dumpsElems_unamb xs ys s t h
      exact ⟨by rw [he], hst⟩
    | obj kvs2 => simp [Json.dumpsL] at h
  | Json.obj kvs, q => by
    intro s t hs ht h
    cases q with
    | null => simp [Json.dumpsL] at h
    | bool b2 =>
      cases b2 with
      | true => simp [Json.dumpsL] at h
      | false => simp [Json.dumpsL] at h
    | int n =>
      simp [Json.dumpsL] at h
      exact (fixed_ne_int '{' (by decide) (by decide) _ n t h).elim
    | str b => simp [Json.dumpsL] at h
    | arr ys => simp [Json.dumpsL] at h
    | obj kvs2 =>
      simp [Json.dumpsL] at h
      obtain ⟨he, hst⟩ := dumpsMems_unamb kvs kvs2 s t h
      exact ⟨by rw [he], hst⟩

theorem dumpsElems_unamb : ∀ (xs ys : JsonArr) (s t : List Char),
    Json.dumpsElems xs ++ ']' :: s = Json.dumpsElems ys ++ ']' :: t →
    xs = ys ∧ s = t
  | JsonArr.nil, ys => by
    intro s t h
    cases ys with
    | nil =>
      simp [Json.dumpsElems] at h
      exact ⟨rfl, h⟩
    | cons y ys2 =>
      obtain ⟨c, r, hc, hj⟩ := dumpsElems_head y ys2
      rw [hc] at h
      simp [Json.dumpsElems] at h
      exact ((jsonStart_not_delim y c hj).1 h.1.symm).elim
  | JsonArr.cons x xs2, ys => by
    intro s t h
    cases ys with
    | nil =>
      obtain ⟨c, r, hc, hj⟩ := dumpsElems_head x xs2
      rw [hc] at h
      simp [Json.dumpsElems] at h
      exact ((jsonStart_not_delim x c hj).1 h.1).elim
    | cons y ys2 =>
      cases xs2 with
      | nil =>
        cases ys2 with
        | nil =>
          simp only [Json.dumpsElems] at h
          obtain ⟨hxy, hst⟩ := dumpsL_unamb x y (']' :: s) (']' :: t)
            (noDigitStart_cons _ (by decide)) (noDigitStart_cons _ (by decide)) h
          simp at hst
          exact ⟨by rw [hxy], hst⟩
        | cons y2 ys3 =>
          rw [dumpsElems_cons_cons] at h
          simp only [Json.dumpsElems, List.cons_append, List.append_assoc] at h
          obtain ⟨hxy, hst⟩ := dumpsL_unamb x y (']' :: s) _
            (noDigitStart_cons _ (by decide)) (noDigitStart_cons _ (by decide)) h
          simp at hst
      | cons x2 xs3 =>
        cases ys2 with
        | nil =>
          rw [dumpsElems_cons_cons] at h
          simp only [Json.dumpsElems, List.cons_append, List.append_assoc] at h
          obtain ⟨hxy, hst⟩ := dumpsL_unamb x y _ (']' :: t)
            (noDigitStart_cons _ (by decide)) (noDigitStart_cons _ (by decide)) h
          simp at hst
        | cons y2 ys3 =>
          rw [dumpsElems_cons_cons, dumpsElems_cons_cons] at h
          simp only [List.cons_append, List.append_assoc] at h
          obtain ⟨hxy, hst⟩ := dumpsL_unamb x y _ _
            (noDigitStart_cons _ (by decide)) (noDigitStart_cons _ (by decide)) h
          simp only [List.cons.injEq, true_and] at hst
          obtain ⟨he, hst2⟩ := dumpsElems_unamb (JsonArr.cons x2 xs3)
            (JsonArr.cons y2 ys3) s t hst
          exact ⟨by rw [hxy, he], hst2⟩

theorem dumpsMems_unamb : ∀ (kvs kvs2 : JsonKVs) (s t : List Char),
    Json.dumpsMems kvs ++ '}' :: s = Json.dumpsMems kvs2 ++ '}' :: t →
    kvs = kvs2 ∧ s = t
  | JsonKVs.nil, kvs2 => by
    intro s t h
    cases kvs2 with
    | nil =>
      simp [Json.dumpsMems] at h
      exact ⟨rfl, h⟩
    | cons k2 v2 kvs3 =>
      cases kvs3 with
      | nil => simp [Json.dumpsMems] at h
      | cons k3 v3 kvs4 =>
        rw [dumpsMems_cons_cons] at h
        simp [Json.dumpsMems] at h
  | JsonKVs.cons k v kvs, kvs2 => by
    intro s t h
    cases kvs2 with
    | nil =>
      cases kvs with
      | nil => simp [Json.dumpsMems] at h
      | cons k3 v3 kvs4 =>
        rw [dumpsMems_cons_cons] at h
        simp [Json.dumpsMems] at h
    | cons k2 v2 kvs3 =>
      cases kvs with
      | nil =>
        cases kvs3 with
        | nil =>
          simp only [Json.dumpsMems, List.cons_append, List.append_assoc,
            List.cons.injEq, true_and] at h
          obtain ⟨hk, hrest⟩ := escStr_cancel _ _ _ _ h
          simp only [List.cons.injEq, true_and] at hrest
          obtain ⟨hv, hst⟩ := dumpsL_unamb v v2 ('}' :: s) ('}' :: t)
            (noDigitStart_cons _ (by decide)) (noDigitStart_cons _ (by decide)) hrest
          simp at hst
          exact ⟨by rw [string_toList_inj hk, hv], hst⟩
        | cons k3 v3 kvs4 =>
          rw [dumpsMems_cons_cons] at h
          simp only [Json.dumpsMems, List.cons_append, List.append_assoc,
            List.cons.injEq, true_and] at h
          obtain ⟨hk, hrest⟩ := escStr_cancel _ _ _ _ h
          simp only [List.cons.injEq, true_and] at hrest
          obtain ⟨hv, hst⟩ := dumpsL_unamb v v2 ('}' :: s) _
            (noDigitStart_cons _ (by decide)) (noDigitStart_cons _ (by decide)) hrest
          simp at hst
      | cons k3 v3 kvs4 =>
        cases kvs3 with
        | nil =>
          rw [dumpsMems_cons_cons] at h
          simp only [Json.dumpsMems, List.cons_append, List.append_assoc,
            List.cons.injEq, true_and] at h
          obtain ⟨hk, hrest⟩ := escStr_cancel _ _ _ _ h
          simp only [List.cons.injEq, true_and] at hrest
          obtain ⟨hv, hst⟩ := dumpsL_unamb v v2 _ ('}' :: t)
            (noDigitStart_cons _ (by decide)) (noDigitStart_cons _ (by decide)) hrest
          simp at hst
        | cons k4 v4 kvs5 =>
          rw [dumpsMems_cons_cons, dumpsMems_cons_cons] at h
          simp only [List.cons_append, List.append_assoc,
            List.cons.injEq, true_and] at h
          obtain ⟨hk, hrest⟩ := escStr_cancel _ _ _ _ h
          simp only [List.cons.injEq, true_and] at hrest
          obtain ⟨hv, hst⟩ := dumpsL_unamb v v2 _ _
            (noDigitStart_cons _ (by decide)) (noDigitStart_cons _ (by decide)) hrest
          simp only [List.cons.injEq, true_and] at hst
          obtain ⟨he, hst2⟩ := dumpsMems_unamb (JsonKVs.cons k3 v3 kvs4)
            (JsonKVs.cons k4 v4 kvs5) s t hst
          exact ⟨by rw [string_toList_inj hk, hv, he], hst2⟩

end

theorem dumpsL_inj (p q : Json) (h : Json.dumpsL p = Json.dumpsL q) : p = q := by
  have h2 : Json.dumpsL p ++ [] = Json.dumpsL q ++ [] := by simp [h]
  exact (dumpsL_unamb p q [] [] trivial trivial h2).1

theorem dumps_inj (p q : Json) (h : Json.dumps p = Json.dumps q) : p = q := by
  apply dumpsL_inj
  unfold Json.dumps at h
  exact congrArg String.data h

theorem dumpsSorted_inj_of_canonical (p q : Json) (hp : p.Canonical)
    (hq : q.Canonical) (h : Json.dumpsSorted p = Json.dumpsSorted q) : p = q := by
  have h2 : Json.sortKeys p = Json.sortKeys q := dumps_inj _ _ h
  rw [hp, hq] at h2
  exact h2

theorem sortKeys_normalized (ts : String) (p : Json) :
    Json.sortKeys (normalizedRecord ts p) =
      Json.obj (JsonKVs.cons "payload" (Json.sortKeys p)
        (JsonKVs.cons "timestamp" (Json.str ts) JsonKVs.nil)) := by
  have hk : keyLe "timestamp" "payload" = false := by decide
  simp [normalizedRecord, Json.sortKeys, Json.sortKeysMems, sortKV, insertKV, hk]

/-- The exact bytes `log_event` signs: with a canonical payload, the
`sort_keys=True` serialization of the normalized record lists `"payload"`
before `"timestamp"`. -/
theorem dumpsSorted_normalized (ts : String) (p : Json) (hp : p.Canonical) :
    (normalizedRecord ts p).dumpsSorted =
      Json.dumps (Json.obj (JsonKVs.cons "payload" p
        (JsonKVs.cons "timestamp" (Json.str ts) JsonKVs.nil))) := by
  rw [Json.dumpsSorted, sortKeys_normalized, hp]

/-- Distinct canonical payloads give distinct signed byte strings,
whatever the two timestamps are. -/
theorem dumpsSorted_normalized_ne (ts1 ts2 : String) (p1 p2 : Json)
    (h1 : p1.Canonical) (h2 : p2.Canonical) (hne : p1 ≠ p2) :
    (normalizedRecord ts1 p1).dumpsSorted ≠ (normalizedRecord ts2 p2).dumpsSorted := by
  intro h
  rw [dumpsSorted_normalized ts1 p1 h1, dumpsSorted_normalized ts2 p2 h2] at h
  have := dumps_inj _ _ h
  simp only [Json.obj.injEq, JsonKVs.cons.injEq, true_and] at this
  exact hne this.1

theorem sigHex_inj (s1 s2 : Sig) (h : sigHex s1 = sigHex s2) : s1 = s2 := by
  obtain ⟨k1, m1⟩ := s1
  obtain ⟨k2, m2⟩ := s2
  unfold sigHex at h
  obtain ⟨hk, hm⟩ := natChars_cancel k1 k2 _ _
    (by simp [noDigitStart]) (by simp [noDigitStart]) h
  simp at hm
  simp [hk, hm]

theorem findRecord_setRecord_self (s : Store) (n : String) (b : Blob) :
    findRecord (setRecord s n b) n = some b := by
  induction s with
  | nil => simp [setRecord, findRecord]
  | cons hd tl ih =>
    obtain ⟨m, c⟩ := hd
    by_cases hm : m = n
    · simp [setRecord, hm, findRecord]
    · simp [setRecord, hm, findRecord, ih]

theorem sumAbsSelf (v : List ℚ) :
    ((v.zip v).map (fun p => |p.1 - p.2|)).sum = 0 := by
  induction v with
  | nil => simp
  | cons a tl ih => simp [List.zip_cons_cons, ih]

theorem meanAbsDist_self (v : List ℚ) : meanAbsDist v v = 0 := by
  simp [meanAbsDist, sumAbsSelf]

/-- The enrollment request schema (`caresense/schemas/triage.py`, line 15):
`vector: List[float] = Field(..., min_length=16)`.  The request layer
rejects enrollment vectors shorter than 16 elements with a validation
error before `BiometricAuthService.enrol` is ever called; the service
itself contains no such check. -/
def biometricVectorMinLength : Nat := 16

/-- Whether a vector passes the `BiometricEnrollmentRequest` schema
validation. -/
def enrollmentRequestValid (v : List ℚ) : Bool :=
  biometricVectorMinLength ≤ v.length

/-- Classification of the store's error values: `invalidToken` is the
`cryptography` library's own exception (`cryptography.fernet.InvalidToken`),
not a component-level error type — `secure_store.py` defines none. -/
def StoreError.isRawLibraryError : StoreError → Bool
  | StoreError.invalidToken => true

/-! ## Claims -/

/-- C1 (counterexample): the claim's final sentence — "In no execution of
`verify` does an exception escape to the caller" — fails on the code: when
the stored record's bytes fail authenticated decryption, the store's
`InvalidToken` exception propagates uncaught out of `verify`, as here at
the concrete store holding a corrupted record for the presented token. -/
theorem C1_counterexample :
    BiometricAuthService.verify [(biometricRecordName "t", Blob.corrupted)]
      "t" [1] defaultTolerance = Except.error PyExn.invalidToken := by
  rfl

/-- C1 (amended): `verify` is fail-closed on the two conditions the spec
names — an absent record, and a presented vector whose length differs from
the decrypted baseline's — returning `false` and raising nothing in both;
but when the stored record is corrupted, the raw `InvalidToken` exception
escapes `verify` to the caller. -/
theorem C1_verify_fail_closed_amended (s : Store) (tid : String) (p : List ℚ)
    (tol : ℚ) :
    (SecureStore.read s (biometricRecordName tid) = Except.ok none →
      BiometricAuthService.verify s tid p tol = Except.ok false) ∧
    (∀ baseline, SecureStore.read s (biometricRecordName tid) =
        Except.ok (some (StorePayload.bio baseline)) →
      baseline.length ≠ p.length →
      BiometricAuthService.verify s tid p tol = Except.ok false) ∧
    (SecureStore.read s (biometricRecordName tid) =
        Except.error StoreError.invalidToken →
      BiometricAuthService.verify s tid p tol = Except.error PyExn.invalidToken) := by
  refine ⟨?_, ?_, ?_⟩
  · intro h
    simp [BiometricAuthService.verify, h]
  · intro baseline h hlen
    simp [BiometricAuthService.verify, h, hlen]
  · intro h
    simp [BiometricAuthService.verify, h]

/-- C1 (witness): the fail-closed branches at concrete inputs: a token with
no record, and a stored baseline of length 2 presented with a vector of
length 1. -/
theorem C1_witness :
    BiometricAuthService.verify [] "absent" [1] defaultTolerance = Except.ok false ∧
    BiometricAuthService.verify
      [(biometricRecordName "t", Blob.intact (StorePayload.bio [1, 2]))]
      "t" [1] defaultTolerance = Except.ok false :=
  ⟨(C1_verify_fail_closed_amended [] "absent" [1] defaultTolerance).1 rfl,
   (C1_verify_fail_closed_amended
      [(biometricRecordName "t", Blob.intact (StorePayload.bio [1, 2]))]
      "t" [1] defaultTolerance).2.1 [1, 2] rfl (by decide)⟩

/-- C2: for an enrolled token whose stored baseline decrypts to a non-empty
vector of the presented vector's length, `verify` returns exactly the
boolean `mean absolute difference ≤ tolerance`; in particular it returns
`true` iff the mean distance is at most the tolerance, the boundary case
included. -/
theorem C2_verify_tolerance_decision (s : Store) (tid : String) (p : List ℚ)
    (tol : ℚ) (baseline : List ℚ)
    (hread : SecureStore.read s (biometricRecordName tid) =
      Except.ok (some (StorePayload.bio baseline)))
    (hne : baseline ≠ []) (hlen : baseline.length = p.length) :
    BiometricAuthService.verify s tid p tol =
      Except.ok (decide (meanAbsDist baseline p ≤ tol)) ∧
    (BiometricAuthService.verify s tid p tol = Except.ok true ↔
      meanAbsDist baseline p ≤ tol) := by
  have hpne : p ≠ [] := by
    intro h0
    rw [h0] at hlen
    exact hne (List.length_eq_zero.mp hlen)
  constructor
  · simp [BiometricAuthService.verify, hread, hlen, hpne]
  · simp [BiometricAuthService.verify, hread, hlen, hpne]

/-- C2 (witness): the spec's concrete scenario: baseline `[0.1] * 16`,
presented `[0.1] * 15 ++ [0.9]` (mean distance `0.05`): accepted at
tolerance `0.1`, rejected at tolerance `0.01`. -/
theorem C2_witness :
    BiometricAuthService.verify
      [(biometricRecordName "t", Blob.intact (StorePayload.bio (List.replicate 16 (1 / 10))))]
      "t" (List.replicate 15 (1 / 10) ++ [9 / 10]) defaultTolerance = Except.ok true ∧
    BiometricAuthService.verify
      [(biometricRecordName "t", Blob.intact (StorePayload.bio (List.replicate 16 (1 / 10))))]
      "t" (List.replicate 15 (1 / 10) ++ [9 / 10]) (1 / 100) = Except.ok false := by
  constructor
  · exact (C2_verify_tolerance_decision
      [(biometricRecordName "t", Blob.intact (StorePayload.bio (List.replicate 16 (1 / 10))))]
      "t" (List.replicate 15 (1 / 10) ++ [9 / 10]) defaultTolerance
      (List.replicate 16 (1 / 10)) rfl (by simp) (by simp)).2.mpr
      (by norm_num [meanAbsDist, defaultTolerance, List.replicate, abs, max_def])
  · rw [(C2_verify_tolerance_decision
      [(biometricRecordName "t", Blob.intact (StorePayload.bio (List.replicate 16 (1 / 10))))]
      "t" (List.replicate 15 (1 / 10) ++ [9 / 10]) (1 / 100)
      (List.replicate 16 (1 / 10)) rfl (by simp) (by simp)).1,
      decide_eq_false (by norm_num [meanAbsDist, List.replicate, abs, max_def])]

/-- C3: enrolling a non-empty vector and verifying the same vector with the
default tolerance returns `true` (supported lengths are non-empty; the
enrollment schema further requires at least 16 elements). -/
theorem C3_enrol_verify_roundtrip (s : Store) (tid : String) (v : List ℚ)
    (hne : v ≠ []) :
    BiometricAuthService.verify (BiometricAuthService.enrol s tid v).1 tid v
      defaultTolerance = Except.ok true := by
  have hread : SecureStore.read (BiometricAuthService.enrol s tid v).1
      (biometricRecordName tid) = Except.ok (some (StorePayload.bio v)) := by
    simp [BiometricAuthService.enrol, SecureStore.write, SecureStore.read,
      findRecord_setRecord_self]
  have hlen0 : v.length ≠ 0 := by
    intro h0
    exact hne (List.length_eq_zero.mp h0)
  simp [BiometricAuthService.verify, hread, hlen0, meanAbsDist_self,
    defaultTolerance]

/-- C3 (witness): a concrete enrol-then-verify round trip on `[1]`. -/
theorem C3_witness :
    BiometricAuthService.verify (BiometricAuthService.enrol [] "t" [1]).1 "t" [1]
      defaultTolerance = Except.ok true :=
  C3_enrol_verify_roundtrip [] "t" [1] (by simp)

/-- C4 (counterexample): `BiometricAuthService.enrol` called with a vector
of length 1 — far below the claimed minimum of 16 — raises nothing,
encrypts the vector and persists the record: the service performs no
length validation. -/
theorem C4_counterexample :
    (BiometricAuthService.enrol [] "t" [1]).1 =
      [(biometricRecordName "t", Blob.intact (StorePayload.bio [1]))] ∧
    (BiometricAuthService.enrol [] "t" [1]).2 =
      { tokenId := "t", ciphertext := [1] } := by
  constructor <;> rfl

/-- C4 (amended): the `len(vector) >= 16` constraint is enforced by the
enrollment request schema (pydantic `min_length=16`), which rejects exactly
the vectors shorter than 16 before the service is called; the service's
`enrol` itself validates nothing and encrypts and persists a vector of any
length. -/
theorem C4_enrol_no_min_length_amended (s : Store) (tid : String) (v : List ℚ) :
    (enrollmentRequestValid v = false ↔ v.length < biometricVectorMinLength) ∧
    BiometricAuthService.enrol s tid v =
      (SecureStore.write s (biometricRecordName tid) (StorePayload.bio v),
        { tokenId := tid, ciphertext := v }) := by
  constructor
  · simp [enrollmentRequestValid, biometricVectorMinLength]
  · rfl

/-- C5 (counterexample): on a corrupted record, `read` does surface a
failure distinct from absence — but the exception surfaced is the
`cryptography` library's own `InvalidToken`, passing raw through the
store's interface; the source defines no component-level `IntegrityFailure`
and catches nothing. -/
theorem C5_counterexample :
    SecureStore.read [("n", Blob.corrupted)] "n" =
      Except.error StoreError.invalidToken ∧
    StoreError.isRawLibraryError StoreError.invalidToken = true :=
  ⟨rfl, rfl⟩

/-- C5 (amended): if the stored bytes for a name fail authenticated
decryption, `read` raises — it returns neither an absent value nor a
default nor garbage — but what it raises is the raw library exception
`cryptography.fernet.InvalidToken`, propagating uncaught past the store's
interface rather than a distinct component-level `IntegrityFailure`. -/
theorem C5_read_integrity_amended (s : Store) (name : String)
    (h : findRecord s name = some Blob.corrupted) :
    SecureStore.read s name = Except.error StoreError.invalidToken := by
  simp [SecureStore.read, h]

/-- C5 (witness): a concrete store with corrupted bytes under `"n"`. -/
theorem C5_witness :
    SecureStore.read [("n", Blob.corrupted)] "n" =
      Except.error StoreError.invalidToken :=
  C5_read_integrity_amended [("n", Blob.corrupted)] "n" rfl

/-- C6: writing a payload and reading it back under the same name returns
exactly the written payload, and reading a name for which no record exists
returns the explicit absent value `none`, not an error. -/
theorem C6_store_roundtrip (s : Store) (name : String) (p : StorePayload) :
    SecureStore.read (SecureStore.write s name p) name = Except.ok (some p) ∧
    (findRecord s name = none → SecureStore.read s name = Except.ok none) := by
  constructor
  · simp [SecureStore.write, SecureStore.read, findRecord_setRecord_self]
  · intro h
    simp [SecureStore.read, h]

/-- C6 (witness): a concrete write/read round trip and a read of a name
never written. -/
theorem C6_witness :
    SecureStore.read (SecureStore.write [] "a" (StorePayload.js Json.null)) "a" =
      Except.ok (some (StorePayload.js Json.null)) ∧
    SecureStore.read [] "never" = Except.ok none :=
  ⟨(C6_store_roundtrip [] "a" (StorePayload.js Json.null)).1,
   (C6_store_roundtrip [] "never" (StorePayload.js Json.null)).2 rfl⟩

/-- C8 (counterexample): with the context file present (generation 7) and
the secret-key file absent — exactly one of the pair — `initialise` does
not fail: it proceeds to the initialised state and overwrites the existing
context file with freshly generated material (generation 99). -/
theorem C8_counterexample :
    (FHEContext.initialise 99 ⟨false, none⟩ ⟨some 7, none⟩).1.initialised = true ∧
    (FHEContext.initialise 99 ⟨false, none⟩ ⟨some 7, none⟩).2.contextFile = some 99 := by
  constructor <;> rfl

/-- C8 (amended): `initialise` loads persisted material only when both
files exist (never one without the other); but when the pair is incomplete
— including when exactly one file exists — it does not fail with a
configuration error: it treats the pair as absent, generates fresh
parameters and keys, and persists both files, overwriting any existing
one. -/
theorem C8_initialise_pair_amended (fresh : Nat) (c : FHEContext)
    (fs : FheFiles) (hc : c.initialised = false) :
    (∀ ctx sec, fs.contextFile = some ctx → fs.secretFile = some sec →
      FHEContext.initialise fresh c fs =
        ({ initialised := true, keyMaterial := some (ctx, sec) }, fs)) ∧
    (contextFilesExist fs = false →
      FHEContext.initialise fresh c fs =
        ({ initialised := true, keyMaterial := some (fresh, fresh) },
          { contextFile := some fresh, secretFile := some fresh })) := by
  constructor
  · intro ctx sec h1 h2
    simp [FHEContext.initialise, hc, h1, h2]
  · intro hex
    obtain ⟨cf, sf⟩ := fs
    cases cf <;> cases sf <;>
      simp_all [FHEContext.initialise, contextFilesExist]

/-- C8 (witness): loading with both files present, and regeneration with
both files absent. -/
theorem C8_witness :
    FHEContext.initialise 5 ⟨false, none⟩ ⟨some 1, some 2⟩ =
      (⟨true, some (1, 2)⟩, ⟨some 1, some 2⟩) ∧
    FHEContext.initialise 5 ⟨false, none⟩ ⟨none, none⟩ =
      (⟨true, some (5, 5)⟩, ⟨some 5, some 5⟩) :=
  ⟨(C8_initialise_pair_amended 5 ⟨false, none⟩ ⟨some 1, some 2⟩ rfl).1 1 2 rfl rfl,
   (C8_initialise_pair_amended 5 ⟨false, none⟩ ⟨none, none⟩ rfl).2 rfl⟩

/-- C9: `initialise` is idempotent: a second call on the state left by a
first call returns that state unchanged — no regeneration, no modification
of the persisted context and secret-key files — whatever fresh material
the second call could have drawn. -/
theorem C9_initialise_idempotent (fresh fresh2 : Nat) (c : FHEContext)
    (fs : FheFiles) :
    FHEContext.initialise fresh2 (FHEContext.initialise fresh c fs).1
        (FHEContext.initialise fresh c fs).2 =
      FHEContext.initialise fresh c fs := by
  obtain ⟨init, km⟩ := c
  obtain ⟨cf, sf⟩ := fs
  cases init <;> cases cf <;> cases sf <;> simp [FHEContext.initialise]

/-- C10: `verify` is read-only with respect to the encrypted object store:
its only store operation is the `read` at line 50, so the store it leaves
behind is the store it was given — every record name, the biometric record
for the presented token included, maps to the same bytes afterwards. -/
theorem C10_verify_frame (s : Store) (tid : String) (p : List ℚ) (tol : ℚ) :
    (BiometricAuthService.verifyRun s tid p tol).1 = s ∧
    ∀ name, findRecord (BiometricAuthService.verifyRun s tid p tol).1 name =
      findRecord s name :=
  ⟨rfl, fun _ => rfl⟩

/-- C7: `log_event` (i) appends exactly one line to the ledger — the
default-serialized record `{timestamp, payload, signature.hex()}` — leaving
the signing key unchanged, and returns that hex signature; (ii) the bytes
it signs are the `sort_keys=True` serialization of `{timestamp, payload}`,
whose stable key order lists `"payload"` before `"timestamp"`; (iii) a
verifier re-serializing `{timestamp, payload}` with the same canonical rule
verifies the signature against the published public key; (iv) logging a
second, different canonical payload produces a different signature,
whatever the second timestamp; and (v) re-serializing the line with any
altered payload fails verification against the original signature.
Payloads are canonical JSON values (sorted keys), the form in which a
Python dict is compared and serialized. -/
theorem C7_log_event_contract (t : ComplianceTrail) (ts : String) (p : Json)
    (hp : p.Canonical) :
    (ComplianceTrail.logEvent t ts p).1.ledger =
      t.ledger ++ [(ledgerRecord ts p
        (ed25519Sign t.signingKey (normalizedRecord ts p).dumpsSorted.toList)).dumps] ∧
    (ComplianceTrail.logEvent t ts p).1.signingKey = t.signingKey ∧
    (ComplianceTrail.logEvent t ts p).2 =
      String.mk (sigHex (ed25519Sign t.signingKey
        (normalizedRecord ts p).dumpsSorted.toList)) ∧
    (normalizedRecord ts p).dumpsSorted =
      Json.dumps (Json.obj (JsonKVs.cons "payload" p
        (JsonKVs.cons "timestamp" (Json.str ts) JsonKVs.nil))) ∧
    ed25519Verify (ComplianceTrail.publicKeyPem t)
      (normalizedRecord ts p).dumpsSorted.toList
      (ed25519Sign t.signingKey (normalizedRecord ts p).dumpsSorted.toList) = true ∧
    (∀ ts2 p2, p2.Canonical → p ≠ p2 →
      (ComplianceTrail.logEvent (ComplianceTrail.logEvent t ts p).1 ts2 p2).2 ≠
        (ComplianceTrail.logEvent t ts p).2) ∧
    (∀ p2, p2.Canonical → p2 ≠ p →
      ed25519Verify (ComplianceTrail.publicKeyPem t)
        (normalizedRecord ts p2).dumpsSorted.toList
        (ed25519Sign t.signingKey (normalizedRecord ts p).dumpsSorted.toList) = false) := by
  refine ⟨rfl, rfl, rfl, dumpsSorted_normalized ts p hp, ?_, ?_, ?_⟩
  · simp [ed25519Verify, ed25519Sign, ComplianceTrail.publicKeyPem]
  · intro ts2 p2 hp2 hne heq
    apply dumpsSorted_normalized_ne ts ts2 p p2 hp hp2 hne
    simp only [ComplianceTrail.logEvent] at heq
    have h1 := congrArg String.data heq
    simp only [String.data] at h1
    have h2 := sigHex_inj _ _ h1
    simp only [ed25519Sign, Sig.mk.injEq] at h2
    exact (string_toList_inj h2.2).symm
  · intro p2 hp2 hne
    apply decide_eq_false
    intro hcontra
    exact dumpsSorted_normalized_ne ts ts p p2 hp hp2 (fun h => hne h.symm)
      (string_toList_inj (by simpa [ed25519Sign] using hcontra.2))

/-- C7 (witness): the spec's concrete scenario, payloads
`{"event": "x", "n": 1}` and `{"event": "x", "n": 2}` logged in sequence:
the first line's signature verifies against the public key on the
re-serialized `{timestamp, payload}`, and the two calls return different
signatures. -/
theorem C7_witness :
    ed25519Verify (ComplianceTrail.publicKeyPem ⟨0, []⟩)
      (normalizedRecord "2026-01-01T00:00:00+00:00"
        (Json.obj (JsonKVs.cons "event" (Json.str "x")
          (JsonKVs.cons "n" (Json.int 1) JsonKVs.nil)))).dumpsSorted.toList
      (ed25519Sign 0
        (normalizedRecord "2026-01-01T00:00:00+00:00"
          (Json.obj (JsonKVs.cons "event" (Json.str "x")
            (JsonKVs.cons "n" (Json.int 1) JsonKVs.nil)))).dumpsSorted.toList) = true ∧
    (ComplianceTrail.logEvent
      (ComplianceTrail.logEvent ⟨0, []⟩ "2026-01-01T00:00:00+00:00"
        (Json.obj (JsonKVs.cons "event" (Json.str "x")
          (JsonKVs.cons "n" (Json.int 1) JsonKVs.nil)))).1
      "2026-01-01T00:00:01+00:00"
      (Json.obj (JsonKVs.cons "event" (Json.str "x")
        (JsonKVs.cons "n" (Json.int 2) JsonKVs.nil)))).2 ≠
    (ComplianceTrail.logEvent ⟨0, []⟩ "2026-01-01T00:00:00+00:00"
      (Json.obj (JsonKVs.cons "event" (Json.str "x")
        (JsonKVs.cons "n" (Json.int 1) JsonKVs.nil)))).2 :=
  ⟨(C7_log_event_contract ⟨0, []⟩ "2026-01-01T00:00:00+00:00"
      (Json.obj (JsonKVs.cons "event" (Json.str "x")
        (JsonKVs.cons "n" (Json.int 1) JsonKVs.nil))) (by decide)).2.2.2.2.1,
   (C7_log_event_contract ⟨0, []⟩ "2026-01-01T00:00:00+00:00"
      (Json.obj (JsonKVs.cons "event" (Json.str "x")
        (JsonKVs.cons "n" (Json.int 1) JsonKVs.nil))) (by decide)).2.2.2.2.2.1
      "2026-01-01T00:00:01+00:00"
      (Json.obj (JsonKVs.cons "event" (Json.str "x")
        (JsonKVs.cons "n" (Json.int 2) JsonKVs.nil))) (by decide) (by decide)⟩
